import Mathlib

/-!
Verification development for the process/task-management core of an
rCore-style teaching kernel (`os/src/syscall/process.rs`,
`os/src/task/mod.rs`, `os/src/task/processor.rs`).

The memory-management collaborator (page table, `VirtAddr`, `PAGE_SIZE`,
`MapPermission`) is external to the verified sources; it is modelled from
the specification's collaborator interface section.  Everything else is a
direct shallow embedding of the Rust sources.
-/

/-- Modelled from the spec: pages are 0x1000 bytes (`PAGE_SIZE` lives in the
external `config` module). -/
def PAGE_SIZE : Nat := 4096

/-- Modelled from the spec: a page-table entry as seen through the
collaborator interface `translate`; only its validity bit and permission
bits matter to the verified code (`pte.is_valid()`). -/
structure PageTableEntry where
  valid : Bool
  perm : Nat
deriving DecidableEq

/-- Modelled from the spec: an address space is a mapping from virtual page
numbers to optional page-table entries (`translate(virtual_page) ->
optional page-table-entry`). -/
abbrev MemorySet : Type := Nat → Option PageTableEntry

/-- Modelled from the spec: `translate` is a lookup that does not fault. -/
def MemorySet.translate (ms : MemorySet) (vpn : Nat) : Option PageTableEntry := ms vpn

/-- Modelled from the spec: `insert_mapped_region(start_va, end_va,
permissions)` creates new valid mappings for every page of the range
(embeds `MemorySet::insert_framed_area`). -/
def MemorySet.insert_framed_area (ms : MemorySet) (st ed : Nat) (perm : Nat) : MemorySet :=
  fun v => if st ≤ v ∧ v < ed then some { valid := true, perm := perm } else ms v

/-- Modelled from the spec: `remove_mapping(virtual_page)` drops one page's
mapping (embeds `MemorySet::erase_virt_map`). -/
def MemorySet.erase_virt_map (ms : MemorySet) (vpn : Nat) : MemorySet :=
  fun v => if v = vpn then none else ms v

/-- Modelled from the spec: `VirtAddr::from(a).floor()`, the page number of
the page containing byte address `a`. -/
def vaFloor (a : Nat) : Nat := a / PAGE_SIZE

/-- Modelled from the spec: `VirtAddr::from(a).ceil()`, the first page number
at or after byte address `a`. -/
def vaCeil (a : Nat) : Nat := (a + PAGE_SIZE - 1) / PAGE_SIZE

/-- The ascending list of virtual page numbers in `[st, ed)`; embeds
iteration over `VPNRange::new(st, ed)`. -/
def vpnList (st ed : Nat) : List Nat := (List.range (ed - st)).map fun i => st + i

/-- Modelled from the spec: `MapPermission` flag bits follow the PTE flag
layout, `R = 1<<1`, `W = 1<<2`, `X = 1<<3`, `U = 1<<4`. -/
def MapPermission.U : Nat := 16

/-- Modelled from the spec: `MapPermission::from_bits_truncate` keeps only
the defined flag bits `R|W|X|U = 0b11110`. -/
def MapPermission.fromBitsTruncate (bits : Nat) : Nat := bits &&& 0x1E

/-- The body of `sys_mmap`'s occupancy scan: `if let Some(pte) =
get_page_table_entry(vpn) { if pte.is_valid() { return -1 } }`. -/
def occupiedCheck (ms : MemorySet) (vpn : Nat) : Bool :=
  match ms.translate vpn with
  | some pte => pte.valid
  | none => false

/-- Embeds `sys_mmap` (`syscall/process.rs`): argument validation, the
occupancy scan over the page range of the current task's address space, and
the insertion done by `add_new_mem_area`.  `port &&& !0x7 != 0` on `usize`
is expressed as `port >>> 3 ≠ 0`, `(port << 1) as u8` as `% 256`. -/
def sys_mmap (start len port : Nat) (ms : MemorySet) : Int × MemorySet :=
  if start &&& (PAGE_SIZE - 1) ≠ 0 ∨ port >>> 3 ≠ 0 ∨ port &&& 0x7 = 0 then
    (-1, ms)
  else
    let vpn_st := vaFloor start
    let vpn_ed := vaCeil (start + len)
    if (vpnList vpn_st vpn_ed).any (occupiedCheck ms) then
      (-1, ms)
    else
      (0, ms.insert_framed_area vpn_st vpn_ed
            (MapPermission.fromBitsTruncate ((port <<< 1) % 256) ||| MapPermission.U))

/-- Embeds the `for vpn in vpn_range` loop of `unmap_mem_area`
(`task/mod.rs` / `processor.rs`): pages with no entry are skipped, an
existing-but-invalid entry aborts with `-1` keeping the state reached so
far, a valid entry is erased. -/
def unmap_loop (st ed : Nat) (ms : MemorySet) : Int × MemorySet :=
  if _h : st < ed then
    match ms.translate st with
    | some pte =>
      if !pte.valid then (-1, ms)
      else unmap_loop (st + 1) ed (ms.erase_virt_map st)
    | none => unmap_loop (st + 1) ed ms
  else
    (0, ms)
termination_by ed - st

/-- Embeds `unmap_mem_area` (`task/mod.rs`): computes the covered page range
and runs the unmapping loop on the current task's address space. -/
def unmap_mem_area (start len : Nat) (ms : MemorySet) : Int × MemorySet :=
  unmap_loop (vaFloor start) (vaCeil (start + len)) ms

/-- Embeds `sys_munmap` (`syscall/process.rs`): alignment check, then
delegation to `unmap_mem_area`. -/
def sys_munmap (start len : Nat) (ms : MemorySet) : Int × MemorySet :=
  if start &&& (PAGE_SIZE - 1) ≠ 0 then (-1, ms)
  else unmap_mem_area start len ms

lemma and_4095_eq_mod (n : Nat) : n &&& 4095 = n % 4096 := by
  have h : (4095 : Nat) = 2 ^ 12 - 1 := by norm_num
  have h2 : (4096 : Nat) = 2 ^ 12 := by norm_num
  rw [h, h2, Nat.and_pow_two_sub_one_eq_mod]

lemma shiftRight3_ne_zero (n : Nat) : n >>> 3 ≠ 0 ↔ 8 ≤ n := by
  rw [Nat.shiftRight_eq_div_pow]
  norm_num
  omega

lemma and_7_eq_mod (n : Nat) : n &&& 7 = n % 8 := by
  have h : (7 : Nat) = 2 ^ 3 - 1 := by norm_num
  have h2 : (8 : Nat) = 2 ^ 3 := by norm_num
  rw [h, h2, Nat.and_pow_two_sub_one_eq_mod]

lemma mem_vpnList (st ed v : Nat) : v ∈ vpnList st ed ↔ st ≤ v ∧ v < ed := by
  simp only [vpnList, List.mem_map, List.mem_range]
  constructor
  · rintro ⟨i, hi, rfl⟩; omega
  · rintro ⟨h1, h2⟩; exact ⟨v - st, by omega, by omega⟩

lemma unmap_loop_below (st ed : Nat) (ms : MemorySet) :
    ∀ v, v < st → (unmap_loop st ed ms).2 v = ms v := by
  induction st, ed, ms using unmap_loop.induct with
  | case1 st ed ms h pte hpte hval =>
    intro v hv
    rw [unmap_loop]
    simp only [dif_pos h, hpte, hval, if_true]
  | case2 st ed ms h pte hpte hval ih =>
    intro v hv
    rw [unmap_loop]
    simp only [dif_pos h, hpte, if_neg hval]
    rw [ih v (by omega)]
    simp only [MemorySet.erase_virt_map]
    rw [if_neg (by omega)]
  | case3 st ed ms h hpte ih =>
    intro v hv
    rw [unmap_loop]
    simp only [dif_pos h, hpte]
    exact ih v (by omega)
  | case4 st ed ms h =>
    intro v hv
    rw [unmap_loop]
    simp [h]

lemma unmap_loop_ret (st ed : Nat) (ms : MemorySet) :
    (unmap_loop st ed ms).1 = 0 ∨ (unmap_loop st ed ms).1 = -1 := by
  induction st, ed, ms using unmap_loop.induct with
  | case1 st ed ms h pte hpte hval =>
    rw [unmap_loop]; simp only [dif_pos h, hpte, hval, if_true]; right; trivial
  | case2 st ed ms h pte hpte hval ih =>
    rw [unmap_loop]; simp only [dif_pos h, hpte, if_neg hval]; exact ih
  | case3 st ed ms h hpte ih =>
    rw [unmap_loop]; simp only [dif_pos h, hpte]; exact ih
  | case4 st ed ms h =>
    rw [unmap_loop]; simp only [dif_neg h]; left; trivial

lemma unmap_loop_ret_zero (st ed : Nat) (ms : MemorySet) :
    (unmap_loop st ed ms).1 = 0 ↔
      ∀ v, st ≤ v → v < ed → ∀ pte, ms v = some pte → pte.valid = true := by
  induction st, ed, ms using unmap_loop.induct with
  | case1 st ed ms h pte hpte hval =>
    rw [unmap_loop]
    simp only [dif_pos h, hpte, hval, if_true]
    simp only [MemorySet.translate] at hpte
    simp only [Bool.not_eq_true'] at hval
    constructor
    · intro hc; exact absurd hc (by decide)
    · intro hall
      have hv2 := hall st le_rfl h pte hpte
      rw [hv2] at hval
      exact absurd hval (by decide)
  | case2 st ed ms h pte hpte hval ih =>
    rw [unmap_loop]
    simp only [dif_pos h, hpte, if_neg hval]
    simp only [MemorySet.translate] at hpte
    have hval' : pte.valid = true := by simpa using hval
    rw [ih]
    constructor
    · intro hrec v hv1 hv2 pte' hpv
      by_cases hvst : v = st
      · subst hvst
        rw [hpv] at hpte
        rw [(Option.some.inj hpte).symm] at hval'
        exact hval'
      · refine hrec v (by omega) hv2 pte' ?_
        simp only [MemorySet.erase_virt_map]
        rw [if_neg hvst]
        exact hpv
    · intro hall v hv1 hv2 pte' hpv
      simp only [MemorySet.erase_virt_map] at hpv
      rw [if_neg (by omega : ¬v = st)] at hpv
      exact hall v (by omega) hv2 pte' hpv
  | case3 st ed ms h hpte ih =>
    rw [unmap_loop]
    simp only [dif_pos h, hpte]
    simp only [MemorySet.translate] at hpte
    rw [ih]
    constructor
    · intro hrec v hv1 hv2 pte' hpv
      by_cases hvst : v = st
      · subst hvst; rw [hpte] at hpv; exact absurd hpv (by simp)
      · exact hrec v (by omega) hv2 pte' hpv
    · intro hall v hv1 hv2 pte' hpv
      exact hall v (by omega) hv2 pte' hpv
  | case4 st ed ms h =>
    rw [unmap_loop]
    simp only [dif_neg h]
    constructor
    · intro _ v hv1 hv2; omega
    · intro _; trivial

lemma unmap_loop_clears (st ed : Nat) (ms : MemorySet) :
    (unmap_loop st ed ms).1 = 0 →
      ∀ v, (st ≤ v → v < ed → (unmap_loop st ed ms).2 v = none) ∧
           (ed ≤ v → (unmap_loop st ed ms).2 v = ms v) := by
  induction st, ed, ms using unmap_loop.induct with
  | case1 st ed ms h pte hpte hval =>
    rw [unmap_loop]
    simp only [dif_pos h, hpte, hval, if_true]
    intro hc; exact absurd hc (by decide)
  | case2 st ed ms h pte hpte hval ih =>
    rw [unmap_loop]
    simp only [dif_pos h, hpte, if_neg hval]
    intro h0 v
    constructor
    · intro hv1 hv2
      by_cases hvst : v = st
      · rw [hvst]
        rw [unmap_loop_below (st + 1) ed _ st (by omega)]
        simp [MemorySet.erase_virt_map]
      · exact ((ih h0) v).1 (by omega) hv2
    · intro hv
      rw [((ih h0) v).2 hv]
      simp only [MemorySet.erase_virt_map]
      rw [if_neg (by omega : ¬v = st)]
  | case3 st ed ms h hpte ih =>
    rw [unmap_loop]
    simp only [dif_pos h, hpte]
    simp only [MemorySet.translate] at hpte
    intro h0 v
    constructor
    · intro hv1 hv2
      by_cases hvst : v = st
      · rw [hvst]
        rw [unmap_loop_below (st + 1) ed _ st (by omega)]
        exact hpte
      · exact ((ih h0) v).1 (by omega) hv2
    · intro hv
      exact ((ih h0) v).2 hv
  | case4 st ed ms h =>
    rw [unmap_loop]
    simp only [dif_neg h]
    intro _ v
    exact ⟨fun h1 h2 => by omega, fun _ => by trivial⟩

lemma unmap_loop_first_invalid (st ed : Nat) (ms : MemorySet) :
    ∀ v0 pte0, st ≤ v0 → v0 < ed → ms v0 = some pte0 → pte0.valid = false →
    (∀ v, st ≤ v → v < v0 → ∀ pte, ms v = some pte → pte.valid = true) →
    (unmap_loop st ed ms).1 = -1 ∧
    (∀ v, st ≤ v → v < v0 → (unmap_loop st ed ms).2 v = none) ∧
    (∀ v, v0 ≤ v → (unmap_loop st ed ms).2 v = ms v) ∧
    (∀ v, v < st → (unmap_loop st ed ms).2 v = ms v) := by
  induction st, ed, ms using unmap_loop.induct with
  | case1 st ed ms h pte hpte hval =>
    intro v0 pte0 h1 h2 h3 h4 h5
    rw [unmap_loop]
    simp only [dif_pos h, hpte, hval, if_true]
    simp only [MemorySet.translate] at hpte
    have hst : st = v0 := by
      by_contra hne
      have := h5 st le_rfl (by omega) pte hpte
      simp only [Bool.not_eq_true'] at hval
      rw [this] at hval
      exact absurd hval (by decide)
    refine ⟨by trivial, ?_, fun v _ => by trivial, fun v _ => by trivial⟩
    intro v hv1 hv2; omega
  | case2 st ed ms h pte hpte hval ih =>
    intro v0 pte0 h1 h2 h3 h4 h5
    rw [unmap_loop]
    simp only [dif_pos h, hpte, if_neg hval]
    simp only [MemorySet.translate] at hpte
    have hval' : pte.valid = true := by simpa using hval
    have hst : st < v0 := by
      rcases Nat.lt_or_ge st v0 with hlt | hge
      · exact hlt
      · have : st = v0 := by omega
        subst this
        rw [hpte] at h3
        rw [(Option.some.inj h3)] at hval'
        rw [hval'] at h4
        exact absurd h4 (by decide)
    have h3' : ms.erase_virt_map st v0 = some pte0 := by
      simp only [MemorySet.erase_virt_map]
      rw [if_neg (by omega : ¬v0 = st)]
      exact h3
    have h5' : ∀ v, st + 1 ≤ v → v < v0 → ∀ pte1,
        ms.erase_virt_map st v = some pte1 → pte1.valid = true := by
      intro v hv1 hv2 pte1 hp
      simp only [MemorySet.erase_virt_map] at hp
      rw [if_neg (by omega : ¬v = st)] at hp
      exact h5 v (by omega) hv2 pte1 hp
    obtain ⟨hret, hin, hup, hlow⟩ := ih v0 pte0 (by omega) h2 h3' h4 h5'
    refine ⟨hret, ?_, ?_, ?_⟩
    · intro v hv1 hv2
      by_cases hvst : v = st
      · rw [hvst]
        rw [unmap_loop_below (st + 1) ed _ st (by omega)]
        simp [MemorySet.erase_virt_map]
      · exact hin v (by omega) hv2
    · intro v hv
      rw [hup v hv]
      simp only [MemorySet.erase_virt_map]
      rw [if_neg (by omega : ¬v = st)]
    · intro v hv
      rw [hlow v (by omega)]
      simp only [MemorySet.erase_virt_map]
      rw [if_neg (by omega : ¬v = st)]
  | case3 st ed ms h hpte ih =>
    intro v0 pte0 h1 h2 h3 h4 h5
    rw [unmap_loop]
    simp only [dif_pos h, hpte]
    simp only [MemorySet.translate] at hpte
    have hst : st < v0 := by
      rcases Nat.lt_or_ge st v0 with hlt | hge
      · exact hlt
      · have : st = v0 := by omega
        subst this
        rw [hpte] at h3
        exact absurd h3 (by simp)
    have h5' : ∀ v, st + 1 ≤ v → v < v0 → ∀ pte1, ms v = some pte1 → pte1.valid = true :=
      fun v hv1 hv2 pte1 hp => h5 v (by omega) hv2 pte1 hp
    obtain ⟨hret, hin, hup, hlow⟩ := ih v0 pte0 (by omega) h2 h3 h4 h5'
    refine ⟨hret, ?_, hup, ?_⟩
    · intro v hv1 hv2
      by_cases hvst : v = st
      · rw [hvst]
        rw [unmap_loop_below (st + 1) ed _ st (by omega)]
        exact hpte
      · exact hin v (by omega) hv2
    · intro v hv
      exact hlow v (by omega)
  | case4 st ed ms h =>
    intro v0 pte0 h1 h2 h3 h4 h5
    omega

lemma sys_mmap_eq (start len port : Nat) (ms : MemorySet) :
    sys_mmap start len port ms =
      if start &&& (PAGE_SIZE - 1) ≠ 0 ∨ port >>> 3 ≠ 0 ∨ port &&& 0x7 = 0 then (-1, ms)
      else if (vpnList (vaFloor start) (vaCeil (start + len))).any (occupiedCheck ms) then
        (-1, ms)
      else
        (0, ms.insert_framed_area (vaFloor start) (vaCeil (start + len))
              (MapPermission.fromBitsTruncate ((port <<< 1) % 256) ||| MapPermission.U)) := rfl

lemma occupied_iff (ms : MemorySet) (st ed : Nat) :
    (vpnList st ed).any (occupiedCheck ms) = true ↔
      ∃ vpn, st ≤ vpn ∧ vpn < ed ∧ ∃ pte, ms.translate vpn = some pte ∧ pte.valid = true := by
  rw [List.any_eq_true]
  constructor
  · rintro ⟨v, hv, hp⟩
    rw [mem_vpnList] at hv
    cases hms : ms.translate v with
    | none => rw [occupiedCheck, hms] at hp; exact absurd hp (by decide)
    | some pte =>
      rw [occupiedCheck, hms] at hp
      exact ⟨v, hv.1, hv.2, pte, hms, hp⟩
  · rintro ⟨v, h1, h2, pte, hpte, hval⟩
    refine ⟨v, (mem_vpnList st ed v).mpr ⟨h1, h2⟩, ?_⟩
    rw [occupiedCheck, hpte]
    exact hval

/-- C1: `sys_mmap(start, len, port)` returns `-1` exactly when `start` is
not page-aligned, `port` has a bit set outside bits 0..2, `port`'s low
three permission bits are all clear, or some page of
`[floor start, ceil (start + len))` already has a valid mapping, and on
every failure the address space is untouched; otherwise it returns `0` and
maps exactly that page range with valid entries carrying the requested
read/write/execute bits (`port` bits 0..2 at flag bits 1..3) plus the
user-accessible flag (bit 4). -/
theorem sys_mmap_spec (start len port : Nat) (ms : MemorySet) :
    ((sys_mmap start len port ms).1 = -1 ∨ (sys_mmap start len port ms).1 = 0) ∧
    ((sys_mmap start len port ms).1 = -1 ↔
      (start % PAGE_SIZE ≠ 0 ∨ 8 ≤ port ∨ port % 8 = 0 ∨
        ∃ vpn, vaFloor start ≤ vpn ∧ vpn < vaCeil (start + len) ∧
          ∃ pte, ms.translate vpn = some pte ∧ pte.valid = true)) ∧
    ((sys_mmap start len port ms).1 = -1 → (sys_mmap start len port ms).2 = ms) ∧
    ((sys_mmap start len port ms).1 = 0 → port < 8 ∧ port % 8 ≠ 0 ∧
      (∀ vpn, vaFloor start ≤ vpn → vpn < vaCeil (start + len) →
        (sys_mmap start len port ms).2 vpn =
          some { valid := true,
                 perm := MapPermission.fromBitsTruncate ((port <<< 1) % 256) |||
                           MapPermission.U }) ∧
      (∀ vpn, vpn < vaFloor start ∨ vaCeil (start + len) ≤ vpn →
        (sys_mmap start len port ms).2 vpn = ms.translate vpn) ∧
      (∀ i, i < 3 →
        (MapPermission.fromBitsTruncate ((port <<< 1) % 256) |||
          MapPermission.U).testBit (i + 1) = port.testBit i) ∧
      (MapPermission.fromBitsTruncate ((port <<< 1) % 256) |||
        MapPermission.U).testBit 4 = true ∧
      (MapPermission.fromBitsTruncate ((port <<< 1) % 256) |||
        MapPermission.U).testBit 0 = false) := by
  have hbad : (start &&& (PAGE_SIZE - 1) ≠ 0 ∨ port >>> 3 ≠ 0 ∨ port &&& 0x7 = 0) ↔
      (start % PAGE_SIZE ≠ 0 ∨ 8 ≤ port ∨ port % 8 = 0) := by
    have e1 : start &&& (PAGE_SIZE - 1) = start % PAGE_SIZE := and_4095_eq_mod start
    have e2 : port &&& 0x7 = port % 8 := and_7_eq_mod port
    rw [e1, e2, shiftRight3_ne_zero]
  by_cases hb : start &&& (PAGE_SIZE - 1) ≠ 0 ∨ port >>> 3 ≠ 0 ∨ port &&& 0x7 = 0
  · have hr : sys_mmap start len port ms = (-1, ms) := by
      rw [sys_mmap_eq, if_pos hb]
    rw [hr]
    refine ⟨Or.inl rfl, ?_, fun _ => rfl, fun h0 => by simp at h0⟩
    constructor
    · intro _
      rcases hbad.mp hb with h | h | h
      · exact Or.inl h
      · exact Or.inr (Or.inl h)
      · exact Or.inr (Or.inr (Or.inl h))
    · intro _; rfl
  · have hargs := (not_congr hbad).mp hb
    push_neg at hargs
    obtain ⟨ha1, ha2, ha3⟩ := hargs
    by_cases hocc : (vpnList (vaFloor start) (vaCeil (start + len))).any (occupiedCheck ms) = true
    · have hr : sys_mmap start len port ms = (-1, ms) := by
        rw [sys_mmap_eq, if_neg hb, if_pos hocc]
      rw [hr]
      refine ⟨Or.inl rfl, ?_, fun _ => rfl, fun h0 => by simp at h0⟩
      constructor
      · intro _
        exact Or.inr (Or.inr (Or.inr ((occupied_iff ms _ _).mp hocc)))
      · intro _; rfl
    · have hr : sys_mmap start len port ms =
          ((0 : Int), ms.insert_framed_area (vaFloor start) (vaCeil (start + len))
                (MapPermission.fromBitsTruncate ((port <<< 1) % 256) ||| MapPermission.U)) := by
        rw [sys_mmap_eq, if_neg hb, if_neg hocc]
      rw [hr]
      refine ⟨Or.inr rfl, ?_, fun h0 => by simp at h0, ?_⟩
      · constructor
        · intro h0; exact absurd h0 (by norm_num)
        · intro hrhs
          rcases hrhs with h | h | h | h
          · exact absurd h (by simpa using ha1)
          · omega
          · exact absurd h ha3
          · exact absurd ((occupied_iff ms _ _).mpr h) hocc
      · intro _
        have hport : port < 8 := by omega
        refine ⟨hport, ha3, ?_, ?_, ?_, ?_, ?_⟩
        · intro vpn h1 h2
          show ms.insert_framed_area _ _ _ vpn = _
          rw [MemorySet.insert_framed_area, if_pos ⟨h1, h2⟩]
        · intro vpn h12
          show ms.insert_framed_area _ _ _ vpn = _
          rw [MemorySet.insert_framed_area, if_neg (by omega)]
          rfl
        · intro i hi
          interval_cases port <;> (interval_cases i <;> decide)
        · interval_cases port <;> decide
        · interval_cases port <;> decide

/-- Witness for C1 at the spec's concrete test: mapping `[0x1000, 0x3000)`
with `port = 0b011` in an empty address space returns `0`, and an identical
second call returns `-1`. -/
theorem sys_mmap_spec_witness :
    (sys_mmap 4096 8192 3 (fun _ => none)).1 = 0 ∧
    (sys_mmap 4096 8192 3 ((sys_mmap 4096 8192 3 (fun _ => none)).2)).1 = -1 := by
  constructor
  · rcases (sys_mmap_spec 4096 8192 3 (fun _ => none)).1 with h | h
    · exfalso
      rcases (sys_mmap_spec 4096 8192 3 (fun _ => none)).2.1.mp h with
        h2 | h2 | h2 | ⟨vpn, _, _, pte, hpte, _⟩
      · exact h2 (by decide)
      · exact absurd h2 (by decide)
      · exact absurd h2 (by decide)
      · exact absurd hpte (by simp [MemorySet.translate])
    · exact h
  · exact (sys_mmap_spec 4096 8192 3 ((sys_mmap 4096 8192 3 (fun _ => none)).2)).2.1.mpr
      (Or.inr (Or.inr (Or.inr
        ⟨1, by decide, by decide, { valid := true, perm := 22 }, by decide, rfl⟩)))

/-- C2: `sys_munmap(start, len)` returns `-1` when `start` is not
page-aligned; for aligned `start` it iterates `[floor start,
ceil (start + len))`, returning `0` (rather than `-1`) exactly when no page
of the range has an existing-but-invalid entry, in which case every page of
the range ends unmapped (valid entries removed, absent entries silently
skipped) and every page outside the range is untouched. -/
theorem sys_munmap_spec (start len : Nat) (ms : MemorySet) :
    (start % PAGE_SIZE ≠ 0 → sys_munmap start len ms = (-1, ms)) ∧
    (start % PAGE_SIZE = 0 →
      ((sys_munmap start len ms).1 = 0 ∨ (sys_munmap start len ms).1 = -1) ∧
      ((sys_munmap start len ms).1 = 0 ↔
        ∀ v, vaFloor start ≤ v → v < vaCeil (start + len) →
          ∀ pte, ms.translate v = some pte → pte.valid = true) ∧
      ((sys_munmap start len ms).1 = 0 →
        (∀ v, vaFloor start ≤ v → v < vaCeil (start + len) →
          (sys_munmap start len ms).2 v = none) ∧
        (∀ v, v < vaFloor start ∨ vaCeil (start + len) ≤ v →
          (sys_munmap start len ms).2 v = ms.translate v))) := by
  have e1 : start &&& (PAGE_SIZE - 1) = start % PAGE_SIZE := and_4095_eq_mod start
  constructor
  · intro hmis
    rw [sys_munmap, if_pos (by rw [e1]; exact hmis)]
  · intro hal
    have hc : ¬(start &&& (PAGE_SIZE - 1) ≠ 0) := by rw [e1]; exact not_not_intro hal
    have hr : sys_munmap start len ms =
        unmap_loop (vaFloor start) (vaCeil (start + len)) ms := by
      rw [sys_munmap, if_neg hc]; rfl
    rw [hr]
    refine ⟨unmap_loop_ret _ _ _, unmap_loop_ret_zero _ _ _, ?_⟩
    intro h0
    refine ⟨fun v h1 h2 => ((unmap_loop_clears _ _ _ h0) v).1 h1 h2, ?_⟩
    intro v hv
    rcases hv with hv | hv
    · exact unmap_loop_below _ _ _ v (by omega)
    · exact ((unmap_loop_clears _ _ _ h0) v).2 hv

/-- Address space used by the C2 witness: only page 1 validly mapped. -/
def exMS1 : MemorySet := fun v => if v = 1 then some { valid := true, perm := 0 } else none

/-- Witness for C2: a misaligned call fails leaving the space untouched; an
aligned unmap of `[0x1000, 0x3000)` over `exMS1` returns `0`, clears page 1,
and leaves page 5 untouched. -/
theorem sys_munmap_spec_witness :
    sys_munmap 4097 4096 exMS1 = (-1, exMS1) ∧
    (sys_munmap 4096 8192 exMS1).1 = 0 ∧
    (sys_munmap 4096 8192 exMS1).2 1 = none ∧
    (sys_munmap 4096 8192 exMS1).2 5 = exMS1.translate 5 := by
  have h := (sys_munmap_spec 4096 8192 exMS1).2 (by decide)
  have hret : (sys_munmap 4096 8192 exMS1).1 = 0 := by
    refine h.2.1.mpr ?_
    intro v h1 h2 pte hp
    norm_num [vaFloor, vaCeil, PAGE_SIZE] at h1 h2
    interval_cases v
    · simp only [exMS1, MemorySet.translate, if_pos rfl] at hp
      rw [← Option.some.inj hp]
    · simp [exMS1, MemorySet.translate] at hp
  exact ⟨(sys_munmap_spec 4097 4096 exMS1).1 (by decide), hret,
    (h.2.2 hret).1 1 (by decide) (by decide),
    (h.2.2 hret).2 5 (Or.inr (by decide))⟩

/-- C10: when aligned `sys_munmap` encounters the first
existing-but-invalid entry of the range at page `v0`, it returns `-1` with
every earlier page of the range already unmapped and not restored, while
`v0`, everything after it, and everything below the range are untouched:
the caller observes a partially unmapped range on error. -/
theorem sys_munmap_nonatomic (start len v0 : Nat) (pte0 : PageTableEntry) (ms : MemorySet)
    (ha : start % PAGE_SIZE = 0)
    (h1 : vaFloor start ≤ v0) (h2 : v0 < vaCeil (start + len))
    (h3 : ms.translate v0 = some pte0) (h4 : pte0.valid = false)
    (h5 : ∀ v, vaFloor start ≤ v → v < v0 → ∀ pte, ms.translate v = some pte →
      pte.valid = true) :
    (sys_munmap start len ms).1 = -1 ∧
    (∀ v, vaFloor start ≤ v → v < v0 → (sys_munmap start len ms).2 v = none) ∧
    (∀ v, v0 ≤ v → (sys_munmap start len ms).2 v = ms.translate v) ∧
    (∀ v, v < vaFloor start → (sys_munmap start len ms).2 v = ms.translate v) := by
  have e1 : start &&& (PAGE_SIZE - 1) = start % PAGE_SIZE := and_4095_eq_mod start
  have hc : ¬(start &&& (PAGE_SIZE - 1) ≠ 0) := by rw [e1]; exact not_not_intro ha
  have hr : sys_munmap start len ms =
      unmap_loop (vaFloor start) (vaCeil (start + len)) ms := by
    rw [sys_munmap, if_neg hc]; rfl
  rw [hr]
  exact unmap_loop_first_invalid (vaFloor start) (vaCeil (start + len)) ms v0 pte0 h1 h2 h3 h4 h5

/-- Address space used by the C10 witness: page 1 validly mapped, page 2
carrying an existing-but-invalid entry. -/
def exMS2 : MemorySet := fun v =>
  if v = 1 then some { valid := true, perm := 0 }
  else if v = 2 then some { valid := false, perm := 0 } else none

/-- Witness for C10: unmapping `[0x1000, 0x4000)` over `exMS2` fails with
`-1`, yet page 1 has already been unmapped while the invalid page 2
survives — a partially unmapped range observed on error. -/
theorem sys_munmap_nonatomic_witness :
    (sys_munmap 4096 12288 exMS2).1 = -1 ∧
    (sys_munmap 4096 12288 exMS2).2 1 = none ∧
    (sys_munmap 4096 12288 exMS2).2 2 = some { valid := false, perm := 0 } := by
  have h := sys_munmap_nonatomic 4096 12288 2 { valid := false, perm := 0 } exMS2
    (by decide) (by decide) (by decide) (by decide) rfl ?h5
  case h5 =>
    intro v hv1 hv2 pte hp
    norm_num [vaFloor, PAGE_SIZE] at hv1
    have hv : v = 1 := by omega
    rw [hv] at hp
    simp only [exMS2, MemorySet.translate, if_pos rfl] at hp
    rw [← Option.some.inj hp]
  exact ⟨h.1, h.2.1 1 (by decide) (by decide),
    (h.2.2.1 2 le_rfl).trans (by decide)⟩

/-- Little-endian byte list of `n`, `w` bytes wide (the target is riscv64:
`usize` is 8 bytes, the syscall counters are `u32`). -/
def natToLe : Nat → Nat → List Nat
  | 0, _ => []
  | w + 1, n => n % 256 :: natToLe w (n / 256)

/-- Embeds `TimeVal` (`syscall/process.rs`, `#[repr(C)]`, two `usize`
fields). -/
structure TimeVal where
  sec : Nat
  usec : Nat

/-- Byte image of a `TimeVal`: `sec` at offset 0, `usec` at offset 8
(little-endian `usize` fields under `#[repr(C)]`). -/
def TimeVal.bytes (tv : TimeVal) : List Nat := natToLe 8 tv.sec ++ natToLe 8 tv.usec

/-- Embeds the per-fragment copy loop shared by `sys_get_time` and
`sys_task_info`: the fragment at position `idx` of length `l` is copied
from byte offset `idx * l` of the record
(`src_ptr.wrapping_byte_add(idx * unit_len)` with `unit_len = dst.len()`),
not from the cumulative length of the earlier fragments. -/
def copyFromOffsets (src : List Nat) : Nat → List Nat → List Nat
  | _, [] => []
  | idx, l :: rest => ((src.drop (idx * l)).take l) ++ copyFromOffsets src (idx + 1) rest

/-- The in-order concatenation of the per-fragment copies written into the
caller's buffer, given the fragment lengths of the user buffer. -/
def copyFragments (src : List Nat) (frags : List Nat) : List Nat :=
  copyFromOffsets src 0 frags

/-- Embeds `sys_get_time` (`syscall/process.rs`): reads the microsecond
clock value `us`, builds `TimeVal { sec: us / 1_000_000, usec: us %
1_000_000 }`, writes its bytes through the per-fragment copy loop and
returns `0`.  The fragment lengths come from the external
`translated_byte_buffer` and are a parameter. -/
def sys_get_time (us : Nat) (frags : List Nat) : Int × List Nat :=
  let time_val : TimeVal := { sec := us / 1000000, usec := us % 1000000 }
  (0, copyFragments time_val.bytes frags)

/-- `TaskStatus` (`task/task.rs`, used by `task/mod.rs` and
`processor.rs`): Ready, Running, Zombie. -/
inductive TaskStatus where
  | Ready
  | Running
  | Zombie
deriving DecidableEq

/-- Modelled from the spec: the syscall-count array is fixed-size with
`size = max syscall id + 1` (`MAX_SYSCALL_NUM` lives in the external
`config` module; the conventional value is 500). -/
def MAX_SYSCALL_NUM : Nat := 500

/-- Modelled from the spec: the yield syscall id (`SYSCALL_YIELD = 124`). -/
def SYSCALL_YIELD : Nat := 124

/-- Embeds `TaskInfo` (`syscall/process.rs`): status, per-syscall-id
invocation counts, total running time. -/
structure TaskInfo where
  status : TaskStatus
  syscall_times : List Nat
  time : Nat

/-- Modelled from the spec: the marshaled status tag ("small enumeration
tag"), one word wide here. -/
def statusTag : TaskStatus → Nat
  | TaskStatus.Ready => 0
  | TaskStatus.Running => 1
  | TaskStatus.Zombie => 2

/-- Modelled from the spec: byte image of the task-info record — status
tag, then the `u32` counter array, then the elapsed-ms word, in field
order. -/
def TaskInfo.bytes (ti : TaskInfo) : List Nat :=
  natToLe 8 (statusTag ti.status) ++ (ti.syscall_times.map (natToLe 4)).flatten
    ++ natToLe 8 ti.time

/-- Byte size of the marshaled task-info record. -/
def TASK_INFO_SIZE : Nat := 8 + 4 * MAX_SYSCALL_NUM + 8

/-- Embeds `sys_task_info` (`syscall/process.rs`): builds the record from
the current task's status, counter array and `get_time_ms() -
get_current_task_start()`, writes its bytes through the per-fragment copy
loop and returns `0`. -/
def sys_task_info (st : TaskStatus) (counts : List Nat) (now task_start : Nat)
    (frags : List Nat) : Int × List Nat :=
  let task_info : TaskInfo :=
    { status := st, syscall_times := counts, time := now - task_start }
  (0, copyFragments task_info.bytes frags)

/-- A freshly created task's counter array: all zeros. -/
def zeroCounts : List Nat := List.replicate MAX_SYSCALL_NUM 0

/-- Embeds `inc_sys_call_time` (`task/mod.rs`): bump the invocation count
of `syscall_id` in the current task's counter array. -/
def inc_sys_call_time (counts : List Nat) (syscall_id : Nat) : List Nat :=
  counts.set syscall_id (counts.getD syscall_id 0 + 1)

/-- `K` successive invocations of `inc_sys_call_time` at one id. -/
def incTimes (counts : List Nat) (syscall_id : Nat) : Nat → List Nat
  | 0 => counts
  | K + 1 => inc_sys_call_time (incTimes counts syscall_id K) syscall_id

/-- C3 (failing evaluation of the code): at clock value `us = 999999` with
the user `TimeVal` straddling a page boundary into fragments of lengths 10
and 6, the call returns `0` but the 16 written bytes are not the byte
representation of `{ sec := us / 1000000, usec := us % 1000000 }`: the
second fragment receives record bytes 6..12 instead of 10..16. -/
theorem sys_get_time_straddle_bug :
    (sys_get_time 999999 [10, 6]).1 = 0 ∧
    ((sys_get_time 999999 [10, 6]).2).length = 16 ∧
    (sys_get_time 999999 [10, 6]).2 ≠
      TimeVal.bytes { sec := 999999 / 1000000, usec := 999999 % 1000000 } ∧
    TimeVal.bytes { sec := 999999 / 1000000, usec := 999999 % 1000000 } =
      natToLe 8 0 ++ natToLe 8 999999 := by decide

lemma natToLe_length (w : Nat) : ∀ n, (natToLe w n).length = w := by
  induction w with
  | zero => intro n; rfl
  | succ w ih => intro n; simp [natToLe, ih]

lemma flatten_map_natToLe_length (cs : List Nat) :
    ((cs.map (natToLe 4)).flatten).length = 4 * cs.length := by
  induction cs with
  | nil => rfl
  | cons c cs ih =>
    simp only [List.map_cons, List.flatten_cons, List.length_append, natToLe_length, ih,
      List.length_cons]
    ring

lemma taskInfoBytes_length (ti : TaskInfo) (h : ti.syscall_times.length = MAX_SYSCALL_NUM) :
    (TaskInfo.bytes ti).length = TASK_INFO_SIZE := by
  simp only [TaskInfo.bytes, TASK_INFO_SIZE, List.length_append, natToLe_length,
    flatten_map_natToLe_length, h]

lemma timeValBytes_length (tv : TimeVal) : (TimeVal.bytes tv).length = 16 := by
  simp [TimeVal.bytes, natToLe_length]

lemma copyFromOffsets_replicate (src : List Nat) (l : Nat) :
    ∀ m idx, copyFromOffsets src idx (List.replicate m l) =
      (src.drop (idx * l)).take (m * l) := by
  intro m
  induction m with
  | zero => intro idx; simp [copyFromOffsets]
  | succ m ih =>
    intro idx
    rw [List.replicate_succ, copyFromOffsets, ih (idx + 1)]
    have h1 : (m + 1) * l = l + m * l := by ring
    have h2 : (idx + 1) * l = idx * l + l := by ring
    rw [h1, h2, List.take_add, List.drop_drop]

lemma copyFragments_replicate (src : List Nat) (m l : Nat) (h : m * l = src.length) :
    copyFragments src (List.replicate m l) = src := by
  rw [copyFragments, copyFromOffsets_replicate src l m 0]
  simp [h]

lemma incTimes_getD (counts : List Nat) (id : Nat) (hid : id < counts.length) :
    ∀ K, (incTimes counts id K).getD id 0 = counts.getD id 0 + K := by
  have hlen : ∀ K, (incTimes counts id K).length = counts.length := by
    intro K
    induction K with
    | zero => rfl
    | succ K ih => simp [incTimes, inc_sys_call_time, ih]
  intro K
  induction K with
  | zero => rfl
  | succ K ih =>
    rw [incTimes, inc_sys_call_time, ih]
    rw [List.getD_eq_getElem?_getD, List.getElem?_set_self (by rw [hlen]; exact hid)]
    rfl

lemma flatten_map_natToLe_getElem (cs : List Nat) :
    ∀ j r, j < cs.length → r < 4 →
      ((cs.map (natToLe 4)).flatten)[4 * j + r]? = (natToLe 4 (cs.getD j 0))[r]? := by
  induction cs with
  | nil => intro j r hj hr; exact absurd hj (by simp)
  | cons c cs ih =>
    intro j r hj hr
    cases j with
    | zero =>
      simp only [List.map_cons, List.flatten_cons, Nat.mul_zero, Nat.zero_add]
      rw [List.getElem?_append_left (by rw [natToLe_length]; exact hr)]
      rfl
    | succ j =>
      simp only [List.map_cons, List.flatten_cons]
      have hlen : (natToLe 4 c).length = 4 := natToLe_length 4 c
      rw [List.getElem?_append_right (by rw [hlen]; omega)]
      have e : 4 * (j + 1) + r - (natToLe 4 c).length = 4 * j + r := by rw [hlen]; omega
      rw [e]
      rw [ih j r (by simpa using Nat.lt_of_succ_lt_succ hj) hr]
      rfl

/-- Counter array used in the C6 counterexample: all counters zero except
counter 272 = 7. -/
def exCounts : List Nat := (List.replicate MAX_SYSCALL_NUM 0).set 272 7

/-- Byte image of the task-info record the C6 counterexample marshals. -/
def exTaskInfoBytes : List Nat :=
  TaskInfo.bytes { status := TaskStatus.Running, syscall_times := exCounts, time := 10 - 4 }

lemma exCounts_length : exCounts.length = 500 := by
  rw [exCounts, List.length_set, List.length_replicate, MAX_SYSCALL_NUM]

lemma exTaskInfoBytes_length : exTaskInfoBytes.length = 2016 := by
  have h := taskInfoBytes_length
    { status := TaskStatus.Running, syscall_times := exCounts, time := 10 - 4 }
    (by simpa [MAX_SYSCALL_NUM] using exCounts_length)
  simpa [TASK_INFO_SIZE, MAX_SYSCALL_NUM, exTaskInfoBytes] using h

lemma exTaskInfoBytes_getElem_mid (i : Nat) (h8 : 8 ≤ i) (hi : i < 2008) :
    exTaskInfoBytes[i]? = ((exCounts.map (natToLe 4)).flatten)[i - 8]? := by
  rw [exTaskInfoBytes, TaskInfo.bytes]
  rw [List.getElem?_append_left
    (by rw [List.length_append, natToLe_length, flatten_map_natToLe_length, exCounts_length]
        omega)]
  rw [List.getElem?_append_right (by rw [natToLe_length]; omega)]
  rw [natToLe_length]

lemma exTaskInfoBytes_at_1096 : exTaskInfoBytes[1096]? = some 7 := by
  rw [exTaskInfoBytes_getElem_mid 1096 (by omega) (by omega)]
  have e : (1096 - 8 : Nat) = 4 * 272 + 0 := by norm_num
  rw [e, flatten_map_natToLe_getElem exCounts 272 0 (by rw [exCounts_length]; omega) (by omega)]
  have hc : exCounts.getD 272 0 = 7 := by
    rw [exCounts, List.getD_eq_getElem?_getD,
      List.getElem?_set_self (by rw [List.length_replicate]; decide)]
    rfl
  rw [hc]
  rfl

lemma exTaskInfoBytes_at_920 : exTaskInfoBytes[920]? = some 0 := by
  rw [exTaskInfoBytes_getElem_mid 920 (by omega) (by omega)]
  have e : (920 - 8 : Nat) = 4 * 228 + 0 := by norm_num
  rw [e, flatten_map_natToLe_getElem exCounts 228 0 (by rw [exCounts_length]; omega) (by omega)]
  have hc : exCounts.getD 228 0 = 0 := by
    rw [exCounts, List.getD_eq_getElem?_getD,
      List.getElem?_set_ne (by omega)]
    rw [List.getElem?_replicate]
    rw [if_pos (by decide : (228 : Nat) < MAX_SYSCALL_NUM)]
    rfl
  rw [hc]
  rfl

/-- C6 counterexample: with the 2016-byte task-info record straddling a
page boundary into fragments of lengths 1096 and 920, `sys_task_info`
still returns `0` but the bytes written into the caller's buffer differ
from the record's bytes — the second fragment receives record bytes
920..1840 instead of 1096..2016, so the buffer does not contain the
task's full invocation-count array. -/
theorem sys_task_info_straddle_cex :
    (sys_task_info TaskStatus.Running exCounts 10 4 [1096, 920]).1 = 0 ∧
    (sys_task_info TaskStatus.Running exCounts 10 4 [1096, 920]).2 ≠ exTaskInfoBytes := by
  refine ⟨rfl, ?_⟩
  have hw : (sys_task_info TaskStatus.Running exCounts 10 4 [1096, 920]).2 =
      exTaskInfoBytes.take 1096 ++ (exTaskInfoBytes.drop 920).take 920 := by
    show copyFragments exTaskInfoBytes [1096, 920] = _
    simp [copyFragments, copyFromOffsets]
  intro heq
  have hcontr := congrArg (fun l => l[1096]?) heq
  simp only [hw] at hcontr
  rw [List.getElem?_append_right
      (by rw [List.length_take, exTaskInfoBytes_length]; omega)] at hcontr
  rw [List.length_take, exTaskInfoBytes_length] at hcontr
  have e : (1096 - min 1096 2016 : Nat) = 0 := by norm_num
  rw [e] at hcontr
  rw [List.getElem?_take, if_pos (by omega : (0 : Nat) < 920)] at hcontr
  rw [List.getElem?_drop] at hcontr
  rw [exTaskInfoBytes_at_920, exTaskInfoBytes_at_1096] at hcontr
  exact absurd hcontr (by decide)

/-- C6 (amended): `sys_task_info` returns `0` and marshals the record
whose fields are the current task's status, its full invocation-count
array, and `now − dispatch_start_time`; whenever the user buffer's
fragments all have equal length (in particular a single fragment) the
caller's buffer receives exactly this record's bytes; and starting from
the all-zero counter array, `K` recorded yield invocations leave count `K`
at the yield syscall id. -/
theorem sys_task_info_spec (st : TaskStatus) (counts : List Nat) (now task_start : Nat)
    (m l : Nat) (hc : counts.length = MAX_SYSCALL_NUM) (hml : m * l = TASK_INFO_SIZE) :
    (sys_task_info st counts now task_start (List.replicate m l)).1 = 0 ∧
    (sys_task_info st counts now task_start (List.replicate m l)).2 =
      TaskInfo.bytes { status := st, syscall_times := counts, time := now - task_start } ∧
    ∀ K, (incTimes zeroCounts SYSCALL_YIELD K).getD SYSCALL_YIELD 0 = K := by
  refine ⟨rfl, ?_, ?_⟩
  · show copyFragments
      (TaskInfo.bytes { status := st, syscall_times := counts, time := now - task_start }) _ = _
    exact copyFragments_replicate _ m l (by rw [taskInfoBytes_length _ hc]; exact hml)
  · intro K
    rw [incTimes_getD zeroCounts SYSCALL_YIELD
      (by rw [zeroCounts, List.length_replicate]; decide) K]
    rw [zeroCounts, List.getD_eq_getElem?_getD, List.getElem?_replicate,
      if_pos (by decide : SYSCALL_YIELD < MAX_SYSCALL_NUM)]
    simp

/-- Witness for the amended C6: two equal fragments of 1008 bytes marshal
the record exactly with return value `0`, and three recorded yields from a
fresh counter array leave count 3 at the yield id. -/
theorem sys_task_info_spec_witness :
    (sys_task_info TaskStatus.Running zeroCounts 10 4 (List.replicate 2 1008)).1 = 0 ∧
    (sys_task_info TaskStatus.Running zeroCounts 10 4 (List.replicate 2 1008)).2 =
      TaskInfo.bytes { status := TaskStatus.Running, syscall_times := zeroCounts, time := 10 - 4 } ∧
    (incTimes zeroCounts SYSCALL_YIELD 3).getD SYSCALL_YIELD 0 = 3 := by
  have h := sys_task_info_spec TaskStatus.Running zeroCounts 10 4
    2 1008 (List.length_replicate _ _) (by decide)
  exact ⟨h.1, h.2.1, h.2.2 3⟩

/-- `IDLE_PID` (`task/mod.rs`): pid of the root/idle process; `INITPROC`
is the first process created and receives this pid. -/
def IDLE_PID : Nat := 0

/-- The mutable inner record of a task control block (the fields of
`task/task.rs` used by the verified sources), with the parent / children
links expressed through pids over a central task table, as the spec's
design notes direct. -/
structure TaskControlBlock where
  status : TaskStatus
  exit_code : Int
  parent : Option Nat
  children : List Nat
  task_sys_calls : List Nat
  task_start : Nat
  task_begin : Bool
  memory_set : MemorySet

/-- The scheduler state: the pid-keyed task table owning every TCB, the
FIFO ready queue of pids (`TaskManager`), and the Processor's current
slot. -/
structure KernelState where
  tasks : List (Nat × TaskControlBlock)
  ready : List Nat
  current : Option Nat

/-- Look up a pid in the task table. -/
def findTask (ts : List (Nat × TaskControlBlock)) (p : Nat) : Option TaskControlBlock :=
  (ts.find? (fun e => e.1 == p)).map (fun e => e.2)

/-- Update the record stored under a pid. -/
def updTask (ts : List (Nat × TaskControlBlock)) (p : Nat)
    (f : TaskControlBlock → TaskControlBlock) : List (Nat × TaskControlBlock) :=
  ts.map fun e => if e.1 = p then (e.1, f e.2) else e

/-- Embeds `suspend_current_and_run_next` (`task/mod.rs`): take the
current task out of the Processor, mark it Ready, push it to the ready
queue's tail and return control to the scheduler; `none` models the
`unwrap` panic when no task is current. -/
def suspend_current_and_run_next (k : KernelState) : Option KernelState :=
  match k.current with
  | none => none
  | some pid =>
    some
      { tasks := updTask k.tasks pid (fun t => { t with status := TaskStatus.Ready }),
        ready := k.ready ++ [pid],
        current := none }

/-- Result of `exit_current_and_run_next`: a whole-system panic (carrying
the state at the point of the panic) or the post-exit state. -/
inductive ExitResult where
  | panicked (k : KernelState)
  | proceed (k : KernelState)

/-- One iteration of the reparenting loop in `exit_current_and_run_next`:
point the child's parent link at `INITPROC` and push the child onto the
root's children list. -/
def reparentStep (ts : List (Nat × TaskControlBlock)) (c : Nat) :
    List (Nat × TaskControlBlock) :=
  updTask (updTask ts c (fun t => { t with parent := some IDLE_PID })) IDLE_PID
    (fun t => { t with children := t.children ++ [c] })

/-- The whole reparenting loop of `exit_current_and_run_next`. -/
def reparentAll (ts : List (Nat × TaskControlBlock)) (cs : List Nat) :
    List (Nat × TaskControlBlock) :=
  cs.foldl reparentStep ts

/-- Embeds `exit_current_and_run_next` (`task/mod.rs`): take the current
task; panic (`All applications completed!`) if it is the idle/root
process, before touching any task state; otherwise mark it Zombie, record
the exit code, reparent every child to `INITPROC`, clear the children
list, reclaim the user address space (`recycle_data_pages`, modelled from
the spec's `reclaim_all_pages`) and return to the scheduler. -/
def exit_current_and_run_next (k : KernelState) (exit_code : Int) : ExitResult :=
  match k.current with
  | none => ExitResult.panicked k
  | some pid =>
    if pid = IDLE_PID then ExitResult.panicked { k with current := none }
    else
      match findTask k.tasks pid with
      | none => ExitResult.panicked { k with current := none }
      | some t =>
        let ts1 := updTask k.tasks pid
          (fun u => { u with status := TaskStatus.Zombie, exit_code := exit_code })
        let ts2 := reparentAll ts1 t.children
        let ts3 := updTask ts2 pid
          (fun u => { u with children := [], memory_set := fun _ => none })
        ExitResult.proceed { tasks := ts3, ready := k.ready, current := none }

/-- One iteration of the `run_tasks` dispatch loop (`processor.rs`): fetch
the head of the ready queue (FIFO `fetch_task`; `manager.rs` is external
to the given sources, so the queue is modelled from the spec's Ready Queue
section); a fetched task is marked Running, gets `task_start` stamped from
the millisecond clock `now` only on its first-ever dispatch (guarded by
`task_begin`), and is stored in the current slot; with an empty queue the
loop retries without changing state. -/
def run_tasks_step (k : KernelState) (now : Nat) : KernelState :=
  match k.ready with
  | [] => k
  | pid :: rest =>
    { tasks := updTask k.tasks pid (fun t =>
        let t1 := { t with status := TaskStatus.Running }
        if t1.task_begin = false then { t1 with task_start := now, task_begin := true }
        else t1),
      ready := rest,
      current := some pid }

lemma findTask_cons (e : Nat × TaskControlBlock) (ts : List (Nat × TaskControlBlock))
    (q : Nat) :
    findTask (e :: ts) q = if e.1 = q then some e.2 else findTask ts q := by
  by_cases h : e.1 = q
  · rw [findTask, List.find?_cons_of_pos _ (by simp [h]), if_pos h]; rfl
  · rw [findTask, List.find?_cons_of_neg _ (by simp [h]), if_neg h]; rfl

lemma updTask_cons (e : Nat × TaskControlBlock) (ts : List (Nat × TaskControlBlock))
    (p : Nat) (f : TaskControlBlock → TaskControlBlock) :
    updTask (e :: ts) p f = (if e.1 = p then (e.1, f e.2) else e) :: updTask ts p f := rfl

lemma findTask_updTask (ts : List (Nat × TaskControlBlock)) (p q : Nat)
    (f : TaskControlBlock → TaskControlBlock) :
    findTask (updTask ts p f) q =
      if q = p then (findTask ts q).map f else findTask ts q := by
  induction ts with
  | nil => by_cases h : q = p <;> simp [findTask, updTask, h]
  | cons e rest ih =>
    by_cases hep : e.1 = p <;> by_cases heq : e.1 = q
    · have hqp : q = p := by rw [← heq, hep]
      simp [updTask_cons, findTask_cons, hep, heq, hqp]
    · have hqp : ¬q = p := fun h => heq (by rw [hep, ← h])
      have hpq : ¬p = q := fun h => hqp h.symm
      simp [updTask_cons, findTask_cons, hep, heq, hqp, hpq, ih]
    · have hqp : ¬q = p := fun h => hep (by rw [heq, h])
      simp [updTask_cons, findTask_cons, hep, heq, hqp]
    · simp [updTask_cons, findTask_cons, hep, heq, ih]

lemma reparentAll_nil (ts : List (Nat × TaskControlBlock)) : reparentAll ts [] = ts := rfl

lemma reparentAll_cons (ts : List (Nat × TaskControlBlock)) (c : Nat) (cs : List Nat) :
    reparentAll ts (c :: cs) = reparentAll (reparentStep ts c) cs := rfl

lemma findTask_reparentStep_root (ts : List (Nat × TaskControlBlock)) (c : Nat)
    (hc : c ≠ IDLE_PID) :
    findTask (reparentStep ts c) IDLE_PID =
      (findTask ts IDLE_PID).map (fun t => { t with children := t.children ++ [c] }) := by
  rw [reparentStep, findTask_updTask, if_pos rfl, findTask_updTask,
    if_neg (fun h => hc h.symm)]

lemma reparentAll_root (cs : List Nat) : ∀ ts, IDLE_PID ∉ cs →
    findTask (reparentAll ts cs) IDLE_PID =
      (findTask ts IDLE_PID).map (fun t => { t with children := t.children ++ cs }) := by
  induction cs with
  | nil =>
    intro ts _
    rw [reparentAll_nil]
    cases findTask ts IDLE_PID <;> simp
  | cons c cs ih =>
    intro ts h
    rw [reparentAll_cons, ih _ (fun hm => h (List.mem_cons_of_mem _ hm)),
      findTask_reparentStep_root ts c (fun hc => h (by rw [← hc]; exact List.mem_cons_self _ _))]
    cases findTask ts IDLE_PID <;> simp

lemma reparentAll_not_mem (cs : List Nat) : ∀ ts r, r ∉ cs → r ≠ IDLE_PID →
    findTask (reparentAll ts cs) r = findTask ts r := by
  induction cs with
  | nil => intro ts r _ _; rfl
  | cons c cs ih =>
    intro ts r h h0
    rw [reparentAll_cons, ih _ r (fun hm => h (List.mem_cons_of_mem _ hm)) h0]
    rw [reparentStep, findTask_updTask, if_neg h0, findTask_updTask,
      if_neg (fun hrc => h (by rw [hrc]; exact List.mem_cons_self _ _))]

lemma reparentAll_mem (cs : List Nat) : ∀ ts c, c ∈ cs → cs.Nodup → IDLE_PID ∉ cs →
    findTask (reparentAll ts cs) c =
      (findTask ts c).map (fun t => { t with parent := some IDLE_PID }) := by
  induction cs with
  | nil => intro ts c h; exact absurd h (by simp)
  | cons c0 cs ih =>
    intro ts c hc hnd h0
    obtain ⟨hc0, hcs⟩ := List.nodup_cons.mp hnd
    have hne0 : c0 ≠ IDLE_PID := fun h => h0 (by rw [← h]; exact List.mem_cons_self _ _)
    rw [reparentAll_cons]
    rcases List.mem_cons.mp hc with rfl | hmem
    · rw [reparentAll_not_mem cs _ c hc0 hne0]
      rw [reparentStep, findTask_updTask, if_neg hne0, findTask_updTask, if_pos rfl]
    · have hcne : c ≠ c0 := fun h => hc0 (h ▸ hmem)
      have hcne0 : c ≠ IDLE_PID :=
        fun h => h0 (by rw [← h]; exact List.mem_cons_of_mem _ hmem)
      rw [ih _ c hmem hcs (fun hm => h0 (List.mem_cons_of_mem _ hm))]
      rw [reparentStep, findTask_updTask, if_neg hcne0, findTask_updTask, if_neg hcne]

lemma exit_proceed_eq (k : KernelState) (code : Int) (pid : Nat) (t : TaskControlBlock)
    (hc : k.current = some pid) (hp : pid ≠ IDLE_PID) (ht : findTask k.tasks pid = some t) :
    exit_current_and_run_next k code = ExitResult.proceed
      { tasks := updTask (reparentAll (updTask k.tasks pid
            (fun u => { u with status := TaskStatus.Zombie, exit_code := code }))
            t.children) pid
            (fun u => { u with children := [], memory_set := fun _ => none }),
        ready := k.ready,
        current := none } := by
  rw [exit_current_and_run_next, hc]
  dsimp only
  rw [if_neg hp, ht]

/-- C4: on exit of a non-root current task, its status is set to Zombie
and its `exit_code` field is set to the code passed by the caller; the
task ends outside both the current slot and the (unchanged) ready queue,
so the Zombie state is terminal. -/
theorem exit_sets_zombie (k : KernelState) (code : Int) (pid : Nat) (t : TaskControlBlock)
    (hc : k.current = some pid) (hp : pid ≠ IDLE_PID) (ht : findTask k.tasks pid = some t)
    (hchp : pid ∉ t.children) :
    ∃ k' t', exit_current_and_run_next k code = ExitResult.proceed k' ∧
      findTask k'.tasks pid = some t' ∧
      t'.status = TaskStatus.Zombie ∧ t'.exit_code = code ∧
      k'.current = none ∧ k'.ready = k.ready := by
  have hfind : findTask (updTask (reparentAll (updTask k.tasks pid
      (fun u => { u with status := TaskStatus.Zombie, exit_code := code })) t.children) pid
      (fun u => { u with children := [], memory_set := fun _ => none })) pid =
      some { t with status := TaskStatus.Zombie, exit_code := code, children := [], memory_set := fun _ => none } := by
    rw [findTask_updTask, if_pos rfl, reparentAll_not_mem t.children _ pid hchp hp,
      findTask_updTask, if_pos rfl, ht]
    rfl
  exact ⟨_, _, exit_proceed_eq k code pid t hc hp ht, hfind, rfl, rfl, rfl, rfl⟩

/-- Witness kernel for the lifecycle theorems: root task 0 (children
`[1]`), current task 1 (children `[2]`), task 2 a grandchild. -/
def exTCB (st : TaskStatus) (par : Option Nat) (chs : List Nat) : TaskControlBlock :=
  { status := st, exit_code := 0, parent := par, children := chs,
    task_sys_calls := [], task_start := 0, task_begin := false,
    memory_set := fun _ => none }

/-- Kernel state used by the exit witnesses. -/
def exKernel : KernelState :=
  { tasks := [(0, exTCB TaskStatus.Ready none [1]),
      (1, exTCB TaskStatus.Running (some 0) [2]),
      (2, exTCB TaskStatus.Ready (some 1) [])],
    ready := [0],
    current := some 1 }

/-- Witness for C4: exiting task 1 of `exKernel` with code 7 yields a
Zombie with `exit_code = 7`, an empty current slot and an unchanged ready
queue. -/
theorem exit_sets_zombie_witness :
    ∃ k' t', exit_current_and_run_next exKernel 7 = ExitResult.proceed k' ∧
      findTask k'.tasks 1 = some t' ∧
      t'.status = TaskStatus.Zombie ∧ t'.exit_code = 7 ∧
      k'.current = none ∧ k'.ready = exKernel.ready :=
  exit_sets_zombie exKernel 7 1 (exTCB TaskStatus.Running (some 0) [2])
    rfl (by decide) rfl (by decide)

/-- C5: exiting a non-root task rewrites every child's parent link to the
root task and appends every child to the root's children list — each child
ends there exactly once — while the exiting task's own children list
becomes empty; exiting a task with no children leaves the root's children
list unchanged. -/
theorem exit_reparents (k : KernelState) (code : Int) (pid : Nat)
    (t root : TaskControlBlock)
    (hc : k.current = some pid) (hp : pid ≠ IDLE_PID)
    (ht : findTask k.tasks pid = some t)
    (hroot : findTask k.tasks IDLE_PID = some root)
    (hnd : t.children.Nodup) (h0 : IDLE_PID ∉ t.children) (hself : pid ∉ t.children)
    (hdisj : ∀ c ∈ t.children, c ∉ root.children)
    (hmem : ∀ c ∈ t.children, ∃ tc, findTask k.tasks c = some tc) :
    ∃ k', exit_current_and_run_next k code = ExitResult.proceed k' ∧
      (∀ c ∈ t.children, ∃ tc, findTask k'.tasks c = some tc ∧ tc.parent = some IDLE_PID) ∧
      (∃ root', findTask k'.tasks IDLE_PID = some root' ∧
        root'.children = root.children ++ t.children ∧
        ∀ c ∈ t.children, root'.children.count c = 1) ∧
      (∃ t', findTask k'.tasks pid = some t' ∧ t'.children = []) ∧
      (t.children = [] → ∃ root', findTask k'.tasks IDLE_PID = some root' ∧
        root'.children = root.children) := by
  refine ⟨_, exit_proceed_eq k code pid t hc hp ht, ?_, ?_, ?_, ?_⟩
  · intro c hcmem
    obtain ⟨tc, htc⟩ := hmem c hcmem
    have hcp : c ≠ pid := fun h => hself (h ▸ hcmem)
    have hc0 : c ≠ IDLE_PID := fun h => h0 (h ▸ hcmem)
    refine ⟨{ tc with parent := some IDLE_PID }, ?_, rfl⟩
    dsimp only
    rw [findTask_updTask, if_neg hcp,
      reparentAll_mem t.children _ c hcmem hnd h0,
      findTask_updTask, if_neg hcp, htc]
    rfl
  · have hroot1 : findTask (updTask k.tasks pid
        (fun u => { u with status := TaskStatus.Zombie, exit_code := code })) IDLE_PID =
        some root := by
      rw [findTask_updTask, if_neg (fun h => hp h.symm), hroot]
    refine ⟨{ root with children := root.children ++ t.children }, ?_, rfl, ?_⟩
    · dsimp only
      rw [findTask_updTask, if_neg (fun h => hp h.symm),
        reparentAll_root t.children _ h0, hroot1]
      rfl
    · intro c hcmem
      show List.count c (root.children ++ t.children) = 1
      rw [List.count_append]
      rw [List.count_eq_zero.mpr (hdisj c hcmem), List.count_eq_one_of_mem hnd hcmem]
  · refine ⟨{ t with status := TaskStatus.Zombie, exit_code := code, children := [], memory_set := fun _ => none }, ?_, rfl⟩
    dsimp only
    rw [findTask_updTask, if_pos rfl, reparentAll_not_mem t.children _ pid hself hp,
      findTask_updTask, if_pos rfl, ht]
    rfl
  · intro hnil
    have hroot1 : findTask (updTask k.tasks pid
        (fun u => { u with status := TaskStatus.Zombie, exit_code := code })) IDLE_PID =
        some root := by
      rw [findTask_updTask, if_neg (fun h => hp h.symm), hroot]
    refine ⟨{ root with children := root.children ++ t.children }, ?_, ?_⟩
    · dsimp only
      rw [findTask_updTask, if_neg (fun h => hp h.symm),
        reparentAll_root t.children _ h0, hroot1]
      rfl
    · rw [hnil]
      simp

/-- Witness for C5: exiting task 1 of `exKernel` (one child, task 2)
reparents task 2 to the root task 0, whose children list becomes `[1, 2]`
with task 2 counted once. -/
theorem exit_reparents_witness :
    ∃ k' tc root', exit_current_and_run_next exKernel 7 = ExitResult.proceed k' ∧
      findTask k'.tasks 2 = some tc ∧ tc.parent = some IDLE_PID ∧
      findTask k'.tasks IDLE_PID = some root' ∧ root'.children = [1, 2] ∧
      root'.children.count 2 = 1 := by
  obtain ⟨k', hk, hch, ⟨root', hr1, hr2, hr3⟩, _, _⟩ :=
    exit_reparents exKernel 7 1 (exTCB TaskStatus.Running (some 0) [2])
      (exTCB TaskStatus.Ready none [1]) rfl (by decide) rfl rfl (by decide) (by decide)
      (by decide) (by decide) (by intro c hc; exact ⟨exTCB TaskStatus.Ready (some 1) [],
        by have hc2 : c = 2 := by simpa [exTCB] using hc
           rw [hc2]; rfl⟩)
  obtain ⟨tc, htc1, htc2⟩ := hch 2 (by decide)
  refine ⟨k', tc, root', hk, htc1, htc2, hr1, ?_, hr3 2 (by decide)⟩
  rw [hr2]; rfl

/-- C7: if the current task has the root/idle pid, exit panics before any
lifecycle mutation — the panic state differs from the pre-call state only
by the already-emptied current slot, so the task table (no Zombie
transition, no reparenting, no page reclamation) and the ready queue are
untouched; for every other current pid present in the table, exit
proceeds without panicking. -/
theorem exit_idle_panics (k : KernelState) (code : Int) (pid : Nat)
    (hc : k.current = some pid) :
    (pid = IDLE_PID →
      exit_current_and_run_next k code = ExitResult.panicked { k with current := none }) ∧
    (pid ≠ IDLE_PID → ∀ t, findTask k.tasks pid = some t →
      ∃ k', exit_current_and_run_next k code = ExitResult.proceed k') := by
  constructor
  · intro hp
    rw [exit_current_and_run_next, hc]
    dsimp only
    rw [if_pos hp]
  · intro hp t ht
    exact ⟨_, exit_proceed_eq k code pid t hc hp ht⟩

/-- Kernel state whose current task is the idle/root process. -/
def exKernelIdle : KernelState :=
  { tasks := [(0, exTCB TaskStatus.Running none [])], ready := [], current := some 0 }

/-- Witness for C7: the idle process exiting panics with the task table
and ready queue untouched, while task 1 of `exKernel` exits normally. -/
theorem exit_idle_panics_witness :
    exit_current_and_run_next exKernelIdle 0 =
      ExitResult.panicked { exKernelIdle with current := none } ∧
    ∃ k', exit_current_and_run_next exKernel 7 = ExitResult.proceed k' := by
  refine ⟨(exit_idle_panics exKernelIdle 0 0 rfl).1 rfl, ?_⟩
  exact (exit_idle_panics exKernel 7 1 rfl).2 (by decide) (exTCB TaskStatus.Running (some 0) [2]) rfl

/-- C8: a task fetched from the head of the ready queue is marked Running
and stored in the Processor's current slot; `task_start` is stamped from
the clock value `now` only when `task_begin` is still unset (the
first-ever dispatch), and on every later dispatch the stored start time is
kept unchanged. -/
theorem run_tasks_step_spec (k : KernelState) (now pid : Nat) (rest : List Nat)
    (t : TaskControlBlock) (hq : k.ready = pid :: rest)
    (ht : findTask k.tasks pid = some t) :
    ∃ t', findTask (run_tasks_step k now).tasks pid = some t' ∧
      t'.status = TaskStatus.Running ∧
      t'.task_begin = true ∧
      t'.task_start = (if t.task_begin then t.task_start else now) ∧
      (run_tasks_step k now).current = some pid ∧
      (run_tasks_step k now).ready = rest := by
  have hr : run_tasks_step k now =
      { tasks := updTask k.tasks pid (fun t =>
          let t1 := { t with status := TaskStatus.Running }
          if t1.task_begin = false then { t1 with task_start := now, task_begin := true }
          else t1),
        ready := rest,
        current := some pid } := by
    rw [run_tasks_step, hq]
  rw [hr]
  cases hb : t.task_begin with
  | true =>
    refine ⟨{ t with status := TaskStatus.Running }, ?_, rfl, hb, rfl, rfl, rfl⟩
    rw [findTask_updTask, if_pos rfl, ht]
    simp [hb]
  | false =>
    refine ⟨{ t with status := TaskStatus.Running, task_start := now, task_begin := true },
      ?_, rfl, rfl, rfl, rfl, rfl⟩
    rw [findTask_updTask, if_pos rfl, ht]
    simp [hb]

/-- Ready-queue kernel for the C8/C9 witnesses: task 1 never dispatched. -/
def exKernelQ : KernelState :=
  { tasks := [(1, exTCB TaskStatus.Ready none [])], ready := [1], current := none }

/-- A task record that has already been dispatched once at time 5. -/
def exTCBbegun : TaskControlBlock :=
  { exTCB TaskStatus.Ready none [] with task_begin := true, task_start := 5 }

/-- Ready-queue kernel whose task 1 has already been dispatched. -/
def exKernelQ2 : KernelState :=
  { tasks := [(1, exTCBbegun)], ready := [1], current := none }

/-- Witness for C8: dispatching never-dispatched task 1 at time 5 stamps
`task_start = 5` and sets `task_begin`; re-dispatching the begun task at
time 9 keeps `task_start = 5`; both dispatches mark the task Running and
store it as current. -/
theorem run_tasks_step_spec_witness :
    ∃ t1 t2, findTask (run_tasks_step exKernelQ 5).tasks 1 = some t1 ∧
      t1.status = TaskStatus.Running ∧ t1.task_begin = true ∧ t1.task_start = 5 ∧
      (run_tasks_step exKernelQ 5).current = some 1 ∧
      findTask (run_tasks_step exKernelQ2 9).tasks 1 = some t2 ∧
      t2.task_begin = true ∧ t2.task_start = 5 := by
  obtain ⟨t1, h1, h2, h3, h4, h5, _⟩ :=
    run_tasks_step_spec exKernelQ 5 1 [] (exTCB TaskStatus.Ready none []) rfl rfl
  obtain ⟨t2, g1, _, g3, g4, _, _⟩ :=
    run_tasks_step_spec exKernelQ2 9 1 [] exTCBbegun rfl rfl
  exact ⟨t1, t2, h1, h2, h3, by rw [h4]; rfl, h5, g1, g3, by rw [g4]; rfl⟩

/-- The scheduler's step relation: one dispatch-loop iteration at some
clock value, one yield, or one non-fatal exit. -/
def SchedStep (k k' : KernelState) : Prop :=
  (∃ now, k' = run_tasks_step k now) ∨
  suspend_current_and_run_next k = some k' ∨
  (∃ code, exit_current_and_run_next k code = ExitResult.proceed k')

/-- The C9 invariant: the ready queue is duplicate-free and no pid sits in
the ready queue and the Processor's current slot at the same time. -/
def SchedInv (k : KernelState) : Prop :=
  k.ready.Nodup ∧ ∀ p, k.current = some p → p ∉ k.ready

lemma exit_proceed_shape (k : KernelState) (code : Int) (k' : KernelState)
    (h : exit_current_and_run_next k code = ExitResult.proceed k') :
    k'.ready = k.ready ∧ k'.current = none := by
  rw [exit_current_and_run_next] at h
  cases hc : k.current with
  | none => rw [hc] at h; exact ExitResult.noConfusion h
  | some pid =>
    rw [hc] at h
    dsimp only at h
    by_cases hp : pid = IDLE_PID
    · rw [if_pos hp] at h; exact ExitResult.noConfusion h
    · rw [if_neg hp] at h
      cases hf : findTask k.tasks pid with
      | none => rw [hf] at h; exact ExitResult.noConfusion h
      | some t =>
        rw [hf] at h
        dsimp only at h
        injection h with h2
        rw [← h2]
        exact ⟨rfl, rfl⟩

lemma schedStep_preserves (k k' : KernelState) (hinv : SchedInv k) (hs : SchedStep k k') :
    SchedInv k' := by
  obtain ⟨hnd, hcur⟩ := hinv
  rcases hs with ⟨now, rfl⟩ | hy | ⟨code, he⟩
  · cases hq : k.ready with
    | nil =>
      have hr : run_tasks_step k now = k := by rw [run_tasks_step, hq]
      rw [hr]
      exact ⟨hnd, hcur⟩
    | cons pid rest =>
      have hr : run_tasks_step k now =
          { tasks := updTask k.tasks pid (fun t =>
              let t1 := { t with status := TaskStatus.Running }
              if t1.task_begin = false then
                { t1 with task_start := now, task_begin := true }
              else t1),
            ready := rest,
            current := some pid } := by
        rw [run_tasks_step, hq]
      rw [hr]
      have hnd' : (pid :: rest).Nodup := hq ▸ hnd
      obtain ⟨hpid, hrest⟩ := List.nodup_cons.mp hnd'
      refine ⟨hrest, ?_⟩
      intro p hp hmem
      apply hpid
      have hpp : pid = p := Option.some.inj hp
      rw [hpp]
      exact hmem
  · rw [suspend_current_and_run_next] at hy
    cases hc : k.current with
    | none => rw [hc] at hy; exact Option.noConfusion hy
    | some pid =>
      rw [hc] at hy
      dsimp only at hy
      rw [← Option.some.inj hy]
      constructor
      · rw [List.nodup_append]
        exact ⟨hnd, List.nodup_singleton pid,
          fun a ha hb => (List.mem_singleton.mp hb ▸ hcur pid hc) ha⟩
      · intro p hp
        exact Option.noConfusion hp
  · obtain ⟨hready, hcur'⟩ := exit_proceed_shape k code k' he
    refine ⟨?_, ?_⟩
    · rw [hready]; exact hnd
    · intro p hp
      rw [hcur'] at hp
      exact Option.noConfusion hp

/-- C9: from any state whose ready queue is duplicate-free and disjoint
from the current slot, every state reachable through the scheduler's step
relation (dispatch, yield, non-fatal exit) keeps the ready queue
duplicate-free and keeps every current task out of the ready queue: no
task control block is simultaneously in the ready queue and in the
Processor's current slot. -/
theorem sched_no_double_ownership (k0 k : KernelState) (h0 : SchedInv k0)
    (hreach : Relation.ReflTransGen SchedStep k0 k) : SchedInv k := by
  induction hreach with
  | refl => exact h0
  | tail _ hstep ih => exact schedStep_preserves _ _ ih hstep

/-- Witness for C9: `exKernelQ` satisfies the invariant and one dispatch
step preserves it. -/
theorem sched_no_double_ownership_witness : SchedInv (run_tasks_step exKernelQ 5) := by
  refine sched_no_double_ownership exKernelQ _ ⟨by decide, ?_⟩
    (Relation.ReflTransGen.single (Or.inl ⟨5, rfl⟩))
  intro p hp
  exact Option.noConfusion hp
